import Mathlib

/-!
Shallow embedding of the kanji-deck scraper (src/main.py).

Conventions of the embedding:
* Python dicts preserve insertion order, so they are modelled as association
  lists (`Dict β`); assignment to an existing key keeps its position, a new
  key is appended at the end.
* Python floats are modelled as rationals; the builtin `float` conversion is
  modelled on plain decimal literals (optional sign, digits, optional decimal
  point), returning `none` where `float` raises `ValueError`.
* Raising an exception is modelled by returning `none` (respectively
  `Except.error`); `BeautifulSoup` documents are modelled structurally by the
  fields the code actually reads.
-/

namespace KanjiDeck

/-- Script kind of a usage record: the `type` field of the dictionaries
appended by `extract_kanji_usage_data`. -/
inductive ScriptType where
  | hiragana
  | katakana
deriving DecidableEq, Repr

/-- One element of the `kanji_data` list built by `extract_kanji_usage_data`:
a dictionary with keys `reading`, `type`, and `percentage`. -/
structure UsageRecord where
  reading : String
  type : ScriptType
  percentage : ℚ
deriving DecidableEq, Repr

/-- A child node of a `span.reading` element, as seen by the comprehension in
`extract_kanji_usage_data`: its `.string` (which is `None` for elements
without a unique string) and whether its tag name is `em`. -/
structure SpanChild where
  string : Option String
  isEm : Bool
deriving DecidableEq, Repr

/-- An `a` element inside the first cell of a usage-table row: the list of
its `span` elements with class `reading`, each given by its children. -/
structure Link where
  readingSpans : List (List SpanChild)
deriving DecidableEq, Repr

/-- A `td` cell of a usage-table row: its first `a` descendant (if any) and
its text content. -/
structure Cell where
  link : Option Link
  text : String
deriving DecidableEq, Repr

/-- The text the comprehension in `extract_kanji_usage_data` builds for one
`span.reading`: the concatenation of `child.string` over children whose
string is present and nonempty (Python truthiness) and whose tag is not
`em`. -/
def spanText (children : List SpanChild) : String :=
  String.join (children.filterMap (fun c =>
    match c.string with
    | some s => if s ≠ "" && !c.isEm then some s else none
    | none => none))

/-- Models `text.replace("%", "")`: remove every percent sign. -/
def stripPercent (s : String) : String :=
  String.mk (s.data.filter (fun c => c ≠ '%'))

/-- Value of a decimal digit character, `none` for non-digits. -/
def digitVal (c : Char) : Option ℕ :=
  if c.isDigit then some (c.toNat - 48) else none

/-- Reads a (possibly empty) all-digit string as a natural number;
`none` as soon as one character is not a digit. -/
def parseDigits (cs : List Char) : Option ℕ :=
  cs.foldl (fun acc c =>
    match acc, digitVal c with
    | some n, some d => some (10 * n + d)
    | _, _ => none) (some 0)

/-- Models the Python builtin `float` on plain decimal literals: an optional
sign, an integer part, and an optional fractional part after one decimal
point, at least one digit overall; every other string raises `ValueError`,
modelled as `none`. -/
def parseFloat (s : String) : Option ℚ :=
  let signAndBody : ℚ × List Char :=
    match s.data with
    | '-' :: rest => (-1, rest)
    | '+' :: rest => (1, rest)
    | rest => (1, rest)
  let body := signAndBody.2
  if body.isEmpty then none
  else
    match body.splitOn '.' with
    | [intPart] =>
      (parseDigits intPart).map (fun n => signAndBody.1 * n)
    | [intPart, fracPart] =>
      if intPart.isEmpty && fracPart.isEmpty then none
      else
        match parseDigits intPart, parseDigits fracPart with
        | some n, some f =>
          some (signAndBody.1 * ((n : ℚ) + (f : ℚ) / (10 : ℚ) ^ fracPart.length))
        | _, _ => none
    | _ => none

/-- Models `float(cells[1].text.replace("%", ""))`. -/
def parsePercentage (s : String) : Option ℚ :=
  parseFloat (stripPercent s)

/-- Membership in the character range of the regex `[ぁ-ん]` (U+3041 to
U+3093). -/
def isHira (c : Char) : Bool :=
  0x3041 ≤ c.toNat && c.toNat ≤ 0x3093

/-- Membership in the character range of the regex `[ァ-ン]` (U+30A1 to
U+30F3). -/
def isKata (c : Char) : Bool :=
  0x30A1 ≤ c.toNat && c.toNat ≤ 0x30F3

/-- Models `"".join(re.findall(r"[ぁ-ん]", reading))`: the subsequence of
characters of `reading` inside the range U+3041 to U+3093. -/
def hiraganaOf (reading : String) : String :=
  String.mk (reading.data.filter isHira)

/-- Models `"".join(re.findall(r"[ァ-ン]", reading))`: the subsequence of
characters of `reading` inside the range U+30A1 to U+30F3. -/
def katakanaOf (reading : String) : String :=
  String.mk (reading.data.filter isKata)

/-- The records appended for one qualifying row with nonzero percentage:
one hiragana record if the hiragana subsequence is nonempty, then one
katakana record if the katakana subsequence is nonempty. -/
def rowRecords (reading : String) (percentage : ℚ) : List UsageRecord :=
  (if hiraganaOf reading ≠ "" then
    [{ reading := hiraganaOf reading, type := ScriptType.hiragana,
       percentage := percentage }]
  else []) ++
  (if katakanaOf reading ≠ "" then
    [{ reading := katakanaOf reading, type := ScriptType.katakana,
       percentage := percentage }]
  else [])

/-- Processing of one table row by `extract_kanji_usage_data`: rows with
fewer than two cells, no link in the first cell, or no reading span are
skipped (`some []`); otherwise the percentage of the second cell is parsed
(`none` models the uncaught `ValueError` of `float`), zero-percentage rows
are skipped, and the remaining rows contribute `rowRecords`. -/
def processRow (row : List Cell) : Option (List UsageRecord) :=
  match row with
  | c0 :: c1 :: _ =>
    match c0.link with
    | none => some []
    | some link =>
      match (link.readingSpans.map spanText) with
      | [] => some []
      | reading :: _ =>
        match parsePercentage c1.text with
        | none => none
        | some percentage =>
          if percentage ≠ 0 then some (rowRecords reading percentage)
          else some []
  | _ => some []

/-- Descending comparison on the `percentage` field, as used by
`kanji_data.sort(key=lambda x: x["percentage"], reverse=True)`; Python sort
is stable, hence `mergeSort`. -/
def recLE (a b : UsageRecord) : Bool :=
  decide (b.percentage ≤ a.percentage)

/-- The row loop of `extract_kanji_usage_data`: append the records of each
row in order; an uncaught `ValueError` in any row aborts the whole loop
(`none`). -/
def collectRows : List (List Cell) → Option (List UsageRecord)
  | [] => some []
  | row :: rest =>
    match processRow row, collectRows rest with
    | some recs, some more => some (recs ++ more)
    | _, _ => none

/-- Models `extract_kanji_usage_data`: scan all rows of all tables in
document order, collect the usage records, abort with `none` when a
percentage cell fails to parse, and finally sort descending by percentage
(stable). -/
def extract_kanji_usage_data (tables : List (List (List Cell))) :
    Option (List UsageRecord) :=
  (collectRows (tables.flatten)).map (fun data => data.mergeSort recLE)

/-- An insertion-ordered dictionary with string keys, the model of a Python
dict. -/
abbrev Dict (β : Type) := List (String × β)

/-- Python `d.get(k)` / `d[k]`: the value at a key, `none` when absent. -/
def dictGet? {β : Type} (d : Dict β) (k : String) : Option β :=
  (d.find? (fun kv => kv.1 = k)).map (fun kv => kv.2)

/-- Python `d[k] = v`: overwrite in place when the key is present (keeping
its position), append at the end otherwise. -/
def dictSet {β : Type} (d : Dict β) (k : String) (v : β) : Dict β :=
  if (d.find? (fun kv => kv.1 = k)).isSome then
    d.map (fun kv => if kv.1 = k then (k, v) else kv)
  else
    d ++ [(k, v)]

/-- Models the dict comprehension in `filter_and_sort_readings` that builds
`reading_percentages`: insert `reading` to `percentage` for each record in
order, so a repeated reading is overwritten by the later record. -/
def reading_percentages (records : List UsageRecord) : Dict ℚ :=
  records.foldl (fun d rec => dictSet d rec.reading rec.percentage) []

/-- Sort key used by `filter_and_sort_reading_type`:
`reading_percentages.get(item[0], 0)`. -/
def sortKey (pcts : Dict ℚ) (rm : String × String) : ℚ :=
  (dictGet? pcts rm.1).getD 0

/-- Descending comparison on the sort key; `sorted(..., reverse=True)` is
stable, hence `mergeSort`. -/
def entryLE (pcts : Dict ℚ) (a b : String × String) : Bool :=
  decide (sortKey pcts b ≤ sortKey pcts a)

/-- Models `filter_and_sort_reading_type`: sort the category dict descending
by looked-up percentage (missing readings count as 0 for the sort), then
keep only readings present in the lookup, attaching meaning and looked-up
percentage. -/
def filter_and_sort_reading_type (readingTypeDict : Dict String)
    (pcts : Dict ℚ) : List (String × String × ℚ) :=
  (readingTypeDict.mergeSort (entryLE pcts)).filterMap (fun rm =>
    (dictGet? pcts rm.1).map (fun p => (rm.1, rm.2, p)))

/-- Models `filter_and_sort_readings`: build the percentage lookup once and
apply `filter_and_sort_reading_type` to the three category dicts. -/
def filter_and_sort_readings (kunyomi onyomi nanori : Dict String)
    (kanjiUsageData : List UsageRecord) :
    List (String × String × ℚ) × List (String × String × ℚ) ×
      List (String × String × ℚ) :=
  let pcts := reading_percentages kanjiUsageData
  (filter_and_sort_reading_type kunyomi pcts,
   filter_and_sort_reading_type onyomi pcts,
   filter_and_sort_reading_type nanori pcts)

/-- One `li` entry of a reading list, as read by `extract_reading_type`:
the texts of the `td` cells of its `table[lang=ja]` (or `none` when the
item has no such table) and the text of its `span.readingMeaning` (or
`none` when absent). -/
structure ReadingItem where
  tableCells : Option (List String)
  meaningSpan : Option String
deriving DecidableEq, Repr

/-- Models `s.strip("-")`: drop leading and trailing hyphen characters. -/
def stripDashes (s : String) : String :=
  String.mk (((s.data.dropWhile (fun c => c = '-')).reverse.dropWhile
    (fun c => c = '-')).reverse)

/-- The reading token of one list item: concatenate the nonempty cell texts
(Python truthiness in the comprehension) and strip hyphens. -/
def itemReading (cells : List String) : String :=
  stripDashes (String.join (cells.filter (fun t => t ≠ "")))

/-- Models the dict-update statement of `extract_reading_type`: append the
meaning to the previously accumulated one with separator `", "`, omitting
the separator when the accumulated meaning was missing or empty. -/
def insertReading (d : Dict String) (reading meaning : String) :
    Dict String :=
  let prev := (dictGet? d reading).getD ""
  dictSet d reading (if prev = "" then meaning else prev ++ ", " ++ meaning)

/-- Models `extract_reading_type`: when the category heading or its sibling
list is absent the result is empty; otherwise fold over the list items,
skipping items without a `table[lang=ja]` and merging repeated readings. -/
def extract_reading_type (readingList : Option (List ReadingItem)) :
    Dict String :=
  match readingList with
  | none => []
  | some items =>
    items.foldl (fun d item =>
      match item.tableCells with
      | none => d
      | some cells =>
        insertReading d (itemReading cells) (item.meaningSpan.getD "")) []

/-- The readings div located by `fetch_kanji_data`: for each of the three
category headings, the sibling list of items when the heading and the list
are present. -/
structure ReadingsDiv where
  kunyomiList : Option (List ReadingItem)
  onyomiList : Option (List ReadingItem)
  nanoriList : Option (List ReadingItem)
deriving DecidableEq, Repr

/-- Models `extract_readings`: one `extract_reading_type` per category. -/
def extract_readings (readingsDiv : ReadingsDiv) :
    Dict String × Dict String × Dict String :=
  (extract_reading_type readingsDiv.kunyomiList,
   extract_reading_type readingsDiv.onyomiList,
   extract_reading_type readingsDiv.nanoriList)

/-- A fetched page, reduced to the parts `fetch_kanji_data` reads: the
readings div selected by the fixed structural path (`none` when the selector
matches nothing) and the tables scanned by the usage extractor. -/
structure Page where
  readingsDiv : Option ReadingsDiv
  tables : List (List (List Cell))
deriving DecidableEq, Repr

/-- The per-character output dictionary of `fetch_kanji_data`. -/
structure CharacterResult where
  kanji : String
  kunyomi : List (String × String × ℚ)
  onyomi : List (String × String × ℚ)
  nanori : List (String × String × ℚ)
deriving DecidableEq, Repr

/-- Models `fetch_kanji_data`: `Except.error ()` is an uncaught exception
escaping the call, `Except.ok none` is the explicit `None` return (fetch
failure or missing readings div), `Except.ok (some r)` is a full result. -/
def fetch_kanji_data (kanji : String) (fetched : Option Page) :
    Except Unit (Option CharacterResult) :=
  match fetched with
  | none => Except.ok none
  | some page =>
    match page.readingsDiv with
    | none => Except.ok none
    | some rdiv =>
      let extracted := extract_readings rdiv
      match extract_kanji_usage_data page.tables with
      | none => Except.error ()
      | some usage =>
        let filtered := filter_and_sort_readings extracted.1 extracted.2.1
          extracted.2.2 usage
        Except.ok (some
          { kanji := kanji, kunyomi := filtered.1, onyomi := filtered.2.1,
            nanori := filtered.2.2 })

/-- A JSON value, reduced to what the AnkiConnect response handling needs:
`null` versus non-null payloads. -/
inductive Json where
  | null
  | str (s : String)
  | num (q : ℚ)
  | arr (l : List ℕ)
deriving DecidableEq, Repr

/-- Field lookup in the parsed response object (a Python dict, so keys are
unique and `in` is key membership). -/
def jsonGet? (resp : List (String × Json)) (k : String) : Option Json :=
  (resp.find? (fun kv => kv.1 = k)).map (fun kv => kv.2)

/-- The failure modes of `invoke`: the three shape checks and the non-null
`error` field, each raised as an exception. -/
inductive InvokeError where
  | wrongFieldCount
  | missingErrorField
  | missingResultField
  | errorField (e : Json)
deriving DecidableEq, Repr

/-- Models `invoke` from the parsed response on: check the field count,
the presence of `error` and `result`, raise the `error` value when it is
not `None`, and otherwise return the `result` value. -/
def invoke (resp : List (String × Json)) : Except InvokeError Json :=
  if resp.length ≠ 2 then Except.error InvokeError.wrongFieldCount
  else
    match jsonGet? resp "error" with
    | none => Except.error InvokeError.missingErrorField
    | some errVal =>
      match jsonGet? resp "result" with
      | none => Except.error InvokeError.missingResultField
      | some resVal =>
        match errVal with
        | Json.null => Except.ok resVal
        | e => Except.error (InvokeError.errorField e)

/-- Modelled from the spec (section 4.2 and the claim wording): membership
in the Unicode Hiragana block, U+3040 to U+309F. Used only to compare the
spec reading of the character classes with the ranges the code uses. -/
def specHiraganaBlock (c : Char) : Bool :=
  0x3040 ≤ c.toNat && c.toNat ≤ 0x309F

/-- Modelled from the spec (section 4.2 and the claim wording): membership
in the Unicode Katakana block, U+30A0 to U+30FF. -/
def specKatakanaBlock (c : Char) : Bool :=
  0x30A0 ≤ c.toNat && c.toNat ≤ 0x30FF

end KanjiDeck

namespace KanjiDeck

theorem dictGet?_cons {β : Type} (kv : String × β) (d : Dict β) (k : String) :
    dictGet? (kv :: d) k = if kv.1 = k then some kv.2 else dictGet? d k := by
  by_cases h : kv.1 = k <;> simp [dictGet?, List.find?_cons, h]

theorem dictSet_cons_ne {β : Type} (kv : String × β) (d : Dict β) (k : String)
    (v : β) (h : kv.1 ≠ k) : dictSet (kv :: d) k v = kv :: dictSet d k v := by
  unfold dictSet
  rw [List.find?_cons_of_neg _ (by simpa using h)]
  by_cases hs : (d.find? (fun kv => kv.1 = k)).isSome <;> simp [hs, h]

theorem dictGet?_dictSet_self {β : Type} (d : Dict β) (k : String) (v : β) :
    dictGet? (dictSet d k v) k = some v := by
  induction d with
  | nil => simp [dictSet, dictGet?]
  | cons kv d ih =>
    by_cases h : kv.1 = k
    · simp [dictSet, List.find?_cons, h, dictGet?]
    · rw [dictSet_cons_ne kv d k v h, dictGet?_cons]
      simp [h, ih]

theorem dictGet?_map_overwrite {β : Type} (d : Dict β) (k k' : String) (v : β)
    (h : k' ≠ k) :
    dictGet? (d.map (fun kv => if kv.1 = k then (k, v) else kv)) k' =
      dictGet? d k' := by
  induction d with
  | nil => rfl
  | cons kv d ih =>
    by_cases hk : kv.1 = k
    · rw [List.map_cons, if_pos hk, dictGet?_cons, dictGet?_cons, hk]
      simp [Ne.symm h, ih]
    · rw [List.map_cons, if_neg hk, dictGet?_cons, dictGet?_cons]
      simp [ih]

theorem dictGet?_dictSet_ne {β : Type} (d : Dict β) (k k' : String) (v : β)
    (h : k' ≠ k) : dictGet? (dictSet d k v) k' = dictGet? d k' := by
  unfold dictSet
  by_cases hs : (d.find? (fun kv => kv.1 = k)).isSome
  · simp [hs, dictGet?_map_overwrite d k k' v h]
  · simp only [hs, if_neg, Bool.false_eq_true, not_false_eq_true]
    simp [dictGet?, List.find?_append, List.find?_cons, Ne.symm h]

theorem foldl_dictSet_dictGet? (records : List UsageRecord) (d : Dict ℚ)
    (r : String) :
    dictGet? (records.foldl (fun d rec => dictSet d rec.reading rec.percentage) d)
        r =
      match (records.filter (fun rec => rec.reading = r)).getLast? with
      | some rec => some rec.percentage
      | none => dictGet? d r := by
  induction records generalizing d with
  | nil => rfl
  | cons rec recs ih =>
    rw [List.foldl_cons, ih]
    by_cases hr : rec.reading = r
    · rw [List.filter_cons_of_pos (by simpa using hr)]
      cases hfl : recs.filter (fun rec => rec.reading = r) with
      | nil =>
        simp only [hfl, List.getLast?_singleton, List.getLast?_nil]
        rw [← hr, dictGet?_dictSet_self]
      | cons x xs =>
        rw [List.getLast?_cons_cons]
        cases hgl : (x :: xs).getLast? with
        | none => simp at hgl
        | some y => rfl
    · rw [List.filter_cons_of_neg (by simpa using hr)]
      cases hfl : recs.filter (fun rec => rec.reading = r) <;>
        simp [hfl, dictGet?_dictSet_ne _ _ _ _ (fun he => hr he.symm)]

/-- C4: the reading-to-percentage lookup built by `filter_and_sort_readings`
retains, for a reading occurring in several usage records, the percentage of
the last such record in the sequence: last write wins. -/
theorem lookup_last_write_wins (records : List UsageRecord) (r : String) :
    dictGet? (reading_percentages records) r =
      ((records.filter (fun rec => rec.reading = r)).getLast?).map
        (fun rec => rec.percentage) := by
  rw [reading_percentages, foldl_dictSet_dictGet?]
  cases (records.filter (fun rec => rec.reading = r)).getLast? <;> rfl

/-- C1: every reading in the output of `filter_and_sort_reading_type` is a
key of the percentage lookup and carries exactly the looked-up percentage;
readings absent from the lookup never appear in the output. -/
theorem ranker_output_from_lookup (d : Dict String) (pcts : Dict ℚ) :
    (∀ r m p, (r, m, p) ∈ filter_and_sort_reading_type d pcts →
        dictGet? pcts r = some p) ∧
    (∀ r, dictGet? pcts r = none →
        ∀ m p, (r, m, p) ∉ filter_and_sort_reading_type d pcts) := by
  have key : ∀ r m p, (r, m, p) ∈ filter_and_sort_reading_type d pcts →
      dictGet? pcts r = some p := by
    intro r m p h
    obtain ⟨rm, hrm, hf⟩ := List.mem_filterMap.mp h
    obtain ⟨q, hq, heq⟩ := Option.map_eq_some'.mp hf
    obtain ⟨h1, h2, h3⟩ : rm.1 = r ∧ rm.2 = m ∧ q = p := by simpa using heq
    rw [← h1, hq, h3]
  refine ⟨key, fun r hr m p hmem => ?_⟩
  simp [key r m p hmem] at hr

theorem filter_and_sort_example :
    filter_and_sort_reading_type [("あ", "to meet")] [("あ", (12 : ℚ))] =
      [("あ", "to meet", 12)] := by
  rw [filter_and_sort_reading_type, List.mergeSort_singleton]
  rfl

/-- Witness for C1 at a concrete category mapping and lookup. -/
theorem ranker_output_from_lookup_witness :
    dictGet? [("あ", (12 : ℚ))] "あ" = some 12 :=
  (ranker_output_from_lookup [("あ", "to meet")] [("あ", (12 : ℚ))]).1
    "あ" "to meet" 12 (by rw [filter_and_sort_example]; exact List.mem_singleton.mpr rfl)

/-- C9: `invoke` returns a result exactly when the parsed response consists
of precisely the two fields `result` and `error` (in either order, keys of a
Python dict being unique) with `error` null; any other response shape, and
any non-null `error`, raises. -/
theorem invoke_ok_iff_exact_fields (resp : List (String × Json)) (v : Json) :
    invoke resp = Except.ok v ↔
      (resp = [("result", v), ("error", Json.null)] ∨
       resp = [("error", Json.null), ("result", v)]) := by
  constructor
  · intro h
    rcases resp with _ | ⟨⟨k1, v1⟩, _ | ⟨⟨k2, v2⟩, _ | ⟨kv3, rest⟩⟩⟩
    · simp [invoke] at h
    · simp [invoke] at h
    · by_cases h1 : k1 = "error" <;> by_cases h2 : k2 = "error" <;>
        by_cases h3 : k1 = "result" <;> by_cases h4 : k2 = "result" <;>
        cases v1 <;> cases v2 <;>
        simp_all [invoke, jsonGet?, List.find?_cons]
    · exfalso
      have hl : (⟨k1, v1⟩ :: ⟨k2, v2⟩ :: kv3 :: rest).length ≠ 2 := by
        simp
      simp [invoke, hl] at h
  · intro h
    rcases h with rfl | rfl <;> rfl

theorem parsePercentage_ten : parsePercentage "10%" = some 10 := by
  have h : parsePercentage "10%" = some ((1 : ℚ) * ((10 : ℕ) : ℚ)) := rfl
  rw [h]; norm_num

theorem processRow_good_ten :
    processRow [Cell.mk (some (Link.mk [[SpanChild.mk (some "か") false]])) "x",
        Cell.mk none "10%"] =
      some [UsageRecord.mk "か" ScriptType.hiragana 10] := by
  have hspan : spanText [SpanChild.mk (some "か") false] = "か" := rfl
  have hrow : rowRecords "か" 10 = [UsageRecord.mk "か" ScriptType.hiragana 10] := rfl
  have hne : (10 : ℚ) ≠ 0 := by norm_num
  simp [processRow, hspan, parsePercentage_ten, hne, hrow]

/-- C10: one usage-table row whose second cell is not a number (after
stripping the percent sign) aborts `extract_kanji_usage_data` for the whole
document with an uncaught `ValueError`, even though another row of the same
document parses fine on its own. -/
theorem malformed_percentage_aborts_extraction :
    parsePercentage "abc%" = none ∧
    processRow [Cell.mk (some (Link.mk [[SpanChild.mk (some "か") false]])) "x",
        Cell.mk none "10%"] =
      some [UsageRecord.mk "か" ScriptType.hiragana 10] ∧
    extract_kanji_usage_data
        [[[Cell.mk (some (Link.mk [[SpanChild.mk (some "か") false]])) "x",
           Cell.mk none "10%"],
          [Cell.mk (some (Link.mk [[SpanChild.mk (some "あ") false]])) "x",
           Cell.mk none "abc%"]]] = none := by
  refine ⟨rfl, processRow_good_ten, ?_⟩
  have hbad : processRow [Cell.mk (some (Link.mk [[SpanChild.mk (some "あ") false]])) "x",
      Cell.mk none "abc%"] = none := rfl
  simp [extract_kanji_usage_data, collectRows, processRow_good_ten, hbad]


theorem parsePercentage_negfive : parsePercentage "-5%" = some (-5) := by
  have h : parsePercentage "-5%" = some ((-1 : ℚ) * ((5 : ℕ) : ℚ)) := rfl
  rw [h]; norm_num

/-- C3 counterexample: a row whose percentage cell reads `-5%` passes the
`percentage != 0.0` guard, so `extract_kanji_usage_data` emits a record
whose percentage
is not strictly positive. -/
theorem usage_extractor_emits_nonpositive_percentage :
    extract_kanji_usage_data
        [[[Cell.mk (some (Link.mk [[SpanChild.mk (some "あ") false]])) "x",
           Cell.mk none "-5%"]]] =
      some [UsageRecord.mk "あ" ScriptType.hiragana (-5)] ∧
    ¬ (0 < (UsageRecord.mk "あ" ScriptType.hiragana (-5)).percentage) := by
  constructor
  · have hspan : spanText [SpanChild.mk (some "あ") false] = "あ" := rfl
    have hrow : rowRecords "あ" (-5) =
        [UsageRecord.mk "あ" ScriptType.hiragana (-5)] := rfl
    have hne : (-5 : ℚ) ≠ 0 := by norm_num
    simp [extract_kanji_usage_data, collectRows, processRow, hspan,
      parsePercentage_negfive, hne, hrow, List.mergeSort_singleton]
  · norm_num

theorem mem_rowRecords_percentage {rec : UsageRecord} {reading : String}
    {p : ℚ} (h : rec ∈ rowRecords reading p) : rec.percentage = p := by
  unfold rowRecords at h
  rcases List.mem_append.mp h with h | h <;> split at h <;> simp_all

theorem processRow_percentage_ne_zero {row : List Cell}
    {l : List UsageRecord} (h : processRow row = some l) :
    ∀ rec ∈ l, rec.percentage ≠ 0 := by
  unfold processRow at h
  split at h
  · split at h
    · rw [Option.some.injEq] at h
      subst h; simp
    · split at h
      · rw [Option.some.injEq] at h
        subst h; simp
      · split at h
        · simp at h
        · split at h
          · rw [Option.some.injEq] at h
            subst h
            intro rec hrec
            rw [mem_rowRecords_percentage hrec]
            assumption
          · rw [Option.some.injEq] at h
            subst h; simp
  · rw [Option.some.injEq] at h
    subst h; simp

theorem mem_collectRows {rows : List (List Cell)} {data : List UsageRecord}
    (h : collectRows rows = some data) :
    ∀ rec ∈ data, ∃ row ∈ rows, ∃ l, processRow row = some l ∧ rec ∈ l := by
  induction rows generalizing data with
  | nil =>
    simp only [collectRows, Option.some.injEq] at h
    subst h
    simp
  | cons row rest ih =>
    unfold collectRows at h
    cases hp : processRow row with
    | none => rw [hp] at h; simp at h
    | some recs =>
      cases hc : collectRows rest with
      | none => rw [hp, hc] at h; simp at h
      | some more =>
        rw [hp, hc] at h
        obtain rfl : recs ++ more = data := by simpa using h
        intro rec hrec
        rcases List.mem_append.mp hrec with hm | hm
        · exact ⟨row, by simp, recs, hp, hm⟩
        · obtain ⟨row', hrow', l, hl, hml⟩ := ih hc rec hm
          exact ⟨row', by simp [hrow'], l, hl, hml⟩

/-- C3 amended: `extract_kanji_usage_data` never emits a record with
percentage exactly 0, but a negative percentage in the page text is passed
through, so strict positivity does not hold in general. -/
theorem usage_extractor_percentage_nonzero {tables : List (List (List Cell))}
    {records : List UsageRecord}
    (h : extract_kanji_usage_data tables = some records) :
    ∀ rec ∈ records, rec.percentage ≠ 0 := by
  unfold extract_kanji_usage_data at h
  obtain ⟨data, hdata, rfl⟩ := Option.map_eq_some'.mp h
  intro rec hrec
  rw [List.mem_mergeSort] at hrec
  obtain ⟨row, _, l, hl, hml⟩ := mem_collectRows hdata rec hrec
  exact processRow_percentage_ne_zero hl rec hml

theorem parsePercentage_twelve : parsePercentage "12%" = some 12 := by
  have h : parsePercentage "12%" = some ((1 : ℚ) * ((12 : ℕ) : ℚ)) := rfl
  rw [h]; norm_num

theorem extract_example_twelve :
    extract_kanji_usage_data
        [[[Cell.mk (some (Link.mk [[SpanChild.mk (some "あ") false]])) "x",
           Cell.mk none "12%"]]] =
      some [UsageRecord.mk "あ" ScriptType.hiragana 12] := by
  have hspan : spanText [SpanChild.mk (some "あ") false] = "あ" := rfl
  have hrow : rowRecords "あ" 12 =
      [UsageRecord.mk "あ" ScriptType.hiragana 12] := rfl
  have hne : (12 : ℚ) ≠ 0 := by norm_num
  simp [extract_kanji_usage_data, collectRows, processRow, hspan,
    parsePercentage_twelve, hne, hrow, List.mergeSort_singleton]

/-- Witness for the amended C3 at a concrete document. -/
theorem usage_extractor_percentage_nonzero_witness :
    (UsageRecord.mk "あ" ScriptType.hiragana 12).percentage ≠ 0 :=
  usage_extractor_percentage_nonzero extract_example_twelve
    (UsageRecord.mk "あ" ScriptType.hiragana 12) (List.mem_singleton.mpr rfl)


/-- The (reading token, meaning) pairs contributed by a reading list, in
document order: items without a `table[lang=ja]` contribute nothing. -/
def itemPairs (items : List ReadingItem) : List (String × String) :=
  items.filterMap (fun item => item.tableCells.map
    (fun cells => (itemReading cells, item.meaningSpan.getD "")))

/-- One accumulation step of the merge rule: append with separator `", "`,
omitting the separator while the accumulated meaning is empty. -/
def meaningStep (acc m : String) : String :=
  if acc = "" then m else acc ++ ", " ++ m

/-- The meaning accumulated from a list of meanings in order, starting from
`acc`. -/
def mergeMeaningsFrom (acc : String) (ms : List String) : String :=
  ms.foldl meaningStep acc

theorem extract_reading_type_eq_foldl (items : List ReadingItem) :
    extract_reading_type (some items) =
      (itemPairs items).foldl (fun d pr => insertReading d pr.1 pr.2) [] := by
  rw [extract_reading_type]
  generalize ([] : Dict String) = d
  induction items generalizing d with
  | nil => rfl
  | cons item rest ih =>
    cases hc : item.tableCells with
    | none => simp [itemPairs, List.filterMap_cons, hc, ih]
    | some cells => simp [itemPairs, List.filterMap_cons, hc, ih]

theorem foldl_insertReading_dictGet? (pairs : List (String × String))
    (d : Dict String) (r : String) :
    dictGet? (pairs.foldl (fun d pr => insertReading d pr.1 pr.2) d) r =
      match dictGet? d r with
      | some prev => some (mergeMeaningsFrom prev
          ((pairs.filter (fun pr => pr.1 = r)).map Prod.snd))
      | none =>
        if (pairs.filter (fun pr => pr.1 = r)).isEmpty then none
        else some (mergeMeaningsFrom ""
          ((pairs.filter (fun pr => pr.1 = r)).map Prod.snd)) := by
  induction pairs generalizing d with
  | nil => cases hd : dictGet? d r <;> simp [hd, mergeMeaningsFrom]
  | cons pr rest ih =>
    obtain ⟨r', m⟩ := pr
    rw [List.foldl_cons, ih]
    by_cases hr : r' = r
    · subst hr
      have hself : dictGet? (insertReading d r' m) r' =
          some (meaningStep ((dictGet? d r').getD "") m) := by
        rw [insertReading, dictGet?_dictSet_self]
        rfl
      rw [hself, List.filter_cons_of_pos (by simp)]
      cases hd : dictGet? d r' with
      | none => simp [hd, mergeMeaningsFrom]
      | some prev => simp [hd, mergeMeaningsFrom]
    · have hne : dictGet? (insertReading d r' m) r = dictGet? d r := by
        rw [insertReading]
        exact dictGet?_dictSet_ne _ _ _ _ (fun he => hr he.symm)
      rw [hne, List.filter_cons_of_neg (by simpa using hr)]

theorem keys_dictSet_nodup {β : Type} (d : Dict β) (k : String) (v : β)
    (h : (d.map Prod.fst).Nodup) :
    ((dictSet d k v).map Prod.fst).Nodup := by
  unfold dictSet
  by_cases hs : (d.find? (fun kv => kv.1 = k)).isSome
  · rw [if_pos hs, List.map_map]
    have he : d.map (Prod.fst ∘ fun kv => if kv.1 = k then (k, v) else kv) =
        d.map Prod.fst :=
      List.map_congr_left (fun kv _ => by by_cases hk : kv.1 = k <;> simp [hk])
    rw [he]; exact h
  · rw [if_neg hs, List.map_append]
    have hk : k ∉ d.map Prod.fst := by
      intro hmem
      obtain ⟨kv, hkv, hfst⟩ := List.mem_map.mp hmem
      exact hs (List.find?_isSome.mpr ⟨kv, hkv, by simp [hfst]⟩)
    refine List.Nodup.append h (List.nodup_singleton k) ?_
    intro a ha hb
    have hak : a = k := by simpa using hb
    subst hak
    exact hk ha

theorem foldl_insertReading_nodup (pairs : List (String × String))
    (d : Dict String) (h : (d.map Prod.fst).Nodup) :
    (((pairs.foldl (fun d pr => insertReading d pr.1 pr.2) d)).map
      Prod.fst).Nodup := by
  induction pairs generalizing d with
  | nil => exact h
  | cons pr rest ih =>
    rw [List.foldl_cons]
    exact ih _ (keys_dictSet_nodup _ _ _ h)

/-- C7: within one category, `extract_reading_type` keeps a single key per
reading token, and its meaning is the accumulation of all that token's
meanings in list order, joined by `", "` with the separator omitted while
the accumulated meaning is empty; no meaning is overwritten. -/
theorem reading_merge_concatenates (items : List ReadingItem) :
    (((extract_reading_type (some items)).map Prod.fst).Nodup) ∧
    (∀ r, dictGet? (extract_reading_type (some items)) r =
      (if ((itemPairs items).filter (fun pr => pr.1 = r)).isEmpty then none
       else some (mergeMeaningsFrom ""
         (((itemPairs items).filter (fun pr => pr.1 = r)).map Prod.snd)))) := by
  rw [extract_reading_type_eq_foldl]
  refine ⟨foldl_insertReading_nodup _ _ (by simp), fun r => ?_⟩
  rw [foldl_insertReading_dictGet?]
  rfl

/-- C8: `fetch_kanji_data` returns None exactly when the page fetch failed
or the readings div is not found; whenever it returns a result, that result
is the complete record assembling all three filtered category mappings. -/
theorem pipeline_all_or_nothing (kanji : String) (fetched : Option Page) :
    (fetch_kanji_data kanji fetched = Except.ok none ↔
      (fetched = none ∨ ∃ page, fetched = some page ∧
        page.readingsDiv = none)) ∧
    (∀ r, fetch_kanji_data kanji fetched = Except.ok (some r) →
      ∃ page rdiv usage, fetched = some page ∧ page.readingsDiv = some rdiv ∧
        extract_kanji_usage_data page.tables = some usage ∧
        r = CharacterResult.mk kanji
          (filter_and_sort_reading_type
            (extract_reading_type rdiv.kunyomiList) (reading_percentages usage))
          (filter_and_sort_reading_type
            (extract_reading_type rdiv.onyomiList) (reading_percentages usage))
          (filter_and_sort_reading_type
            (extract_reading_type rdiv.nanoriList) (reading_percentages usage))) := by
  cases fetched with
  | none => simp [fetch_kanji_data]
  | some page =>
    cases hdiv : page.readingsDiv with
    | none => simp [fetch_kanji_data, hdiv]
    | some rdiv =>
      cases hex : extract_kanji_usage_data page.tables with
      | none => simp [fetch_kanji_data, hdiv, hex]
      | some usage =>
        constructor
        · simp [fetch_kanji_data, hdiv, hex]
        · intro r hr
          refine ⟨page, rdiv, usage, rfl, hdiv, hex, ?_⟩
          simp only [fetch_kanji_data, hdiv, hex, extract_readings,
            filter_and_sort_readings, Except.ok.injEq, Option.some.injEq] at hr
          exact hr.symm

/-- Witness for C8: a failed fetch makes the pipeline return None. -/
theorem pipeline_all_or_nothing_witness :
    fetch_kanji_data "亜" none = Except.ok none :=
  (pipeline_all_or_nothing "亜" none).1.mpr (Or.inl rfl)


theorem entryLE_trans (pcts : Dict ℚ) : ∀ (a b c : String × String),
    entryLE pcts a b → entryLE pcts b c → entryLE pcts a c := by
  intro a b c hab hbc
  simp only [entryLE, decide_eq_true_eq] at *
  exact le_trans hbc hab

theorem entryLE_total (pcts : Dict ℚ) : ∀ (a b : String × String),
    entryLE pcts a b || entryLE pcts b a := by
  intro a b
  simp only [entryLE, Bool.or_eq_true, decide_eq_true_eq]
  exact le_total _ _

theorem ranker_filter_eq_class (d : Dict String) (pcts : Dict ℚ) (p : ℚ) :
    (d.mergeSort (entryLE pcts)).filter
        (fun rm => dictGet? pcts rm.1 = some p) =
      d.filter (fun rm => dictGet? pcts rm.1 = some p) := by
  have hpair : (d.filter (fun rm => dictGet? pcts rm.1 = some p)).Pairwise
      (fun a b => entryLE pcts a b) := by
    apply List.pairwise_of_forall_mem_list
    intro a ha b hb
    have hpa : dictGet? pcts a.1 = some p := by
      simpa using (List.mem_filter.mp ha).2
    have hpb : dictGet? pcts b.1 = some p := by
      simpa using (List.mem_filter.mp hb).2
    simp [entryLE, sortKey, hpa, hpb]
  have hsub : List.Sublist (d.filter (fun rm => dictGet? pcts rm.1 = some p))
      (d.mergeSort (entryLE pcts)) :=
    List.sublist_mergeSort (entryLE_trans pcts) (entryLE_total pcts) hpair
      (List.filter_sublist d)
  have hidem : (d.filter (fun rm => dictGet? pcts rm.1 = some p)).filter
      (fun rm => dictGet? pcts rm.1 = some p) =
      d.filter (fun rm => dictGet? pcts rm.1 = some p) :=
    List.filter_eq_self.mpr (fun a ha => (List.mem_filter.mp ha).2)
  have hsub2 : List.Sublist (d.filter (fun rm => dictGet? pcts rm.1 = some p))
      ((d.mergeSort (entryLE pcts)).filter
        (fun rm => dictGet? pcts rm.1 = some p)) := by
    have := hsub.filter (fun rm => dictGet? pcts rm.1 = some p)
    rwa [hidem] at this
  have hperm : List.Perm ((d.mergeSort (entryLE pcts)).filter
      (fun rm => dictGet? pcts rm.1 = some p))
      (d.filter (fun rm => dictGet? pcts rm.1 = some p)) :=
    (List.mergeSort_perm d (entryLE pcts)).filter _
  exact (hsub2.eq_of_length hperm.length_eq.symm).symm

theorem ranker_filterMap_filter (l : List (String × String)) (pcts : Dict ℚ)
    (p : ℚ) :
    (l.filterMap (fun rm =>
        (dictGet? pcts rm.1).map (fun q => (rm.1, rm.2, q)))).filter
        (fun e => e.2.2 = p) =
      (l.filter (fun rm => dictGet? pcts rm.1 = some p)).map
        (fun rm => (rm.1, rm.2, p)) := by
  induction l with
  | nil => rfl
  | cons rm rest ih =>
    cases hq : dictGet? pcts rm.1 with
    | none => simp [List.filterMap_cons, List.filter_cons, hq, ih]
    | some q =>
      by_cases hqp : q = p
      · subst hqp
        simp [List.filterMap_cons, List.filter_cons, hq, ih]
      · simp [List.filterMap_cons, List.filter_cons, hq, hqp, ih]

/-- C2: the output of `filter_and_sort_reading_type` is ordered
non-increasing by percentage, and for every percentage value the entries
carrying it appear in exactly the order of the input category mapping
(stable ties by insertion order). -/
theorem ranker_sorted_and_stable (d : Dict String) (pcts : Dict ℚ) :
    (filter_and_sort_reading_type d pcts).Pairwise
        (fun a b => b.2.2 ≤ a.2.2) ∧
    (∀ p : ℚ, (filter_and_sort_reading_type d pcts).filter
        (fun e => e.2.2 = p) =
      (d.filter (fun rm => dictGet? pcts rm.1 = some p)).map
        (fun rm => (rm.1, rm.2, p))) := by
  constructor
  · have hs := List.sorted_mergeSort (entryLE_trans pcts) (entryLE_total pcts) d
    rw [filter_and_sort_reading_type]
    refine List.Pairwise.filterMap _ ?_ hs
    intro a b hab x hx y hy
    rw [Option.mem_def] at hx hy
    obtain ⟨pa, hpa, rfl⟩ := Option.map_eq_some'.mp hx
    obtain ⟨pb, hpb, rfl⟩ := Option.map_eq_some'.mp hy
    have hkey : sortKey pcts b ≤ sortKey pcts a := by
      simpa only [entryLE, decide_eq_true_eq] using hab
    simpa [sortKey, hpa, hpb] using hkey
  · intro p
    rw [filter_and_sort_reading_type, ranker_filterMap_filter,
      ranker_filter_eq_class]


theorem parsePercentage_fifty : parsePercentage "50%" = some 50 := by
  have h : parsePercentage "50%" = some ((1 : ℚ) * ((50 : ℕ) : ℚ)) := rfl
  rw [h]; norm_num

/-- C5 counterexample: the character U+3094 (hiragana letter vu) belongs to
the Unicode Hiragana block, yet a qualifying row whose reading token is that
single character yields no record at all: the regex range stops at U+3093,
so the character lands in neither subsequence. -/
theorem hiragana_block_char_dropped :
    specHiraganaBlock 'ゔ' = true ∧ 'ゔ' ∈ "ゔ".data ∧
    extract_kanji_usage_data
        [[[Cell.mk (some (Link.mk [[SpanChild.mk (some "ゔ") false]])) "x",
           Cell.mk none "50%"]]] = some [] := by
  refine ⟨rfl, ?_, ?_⟩
  · show 'ゔ' ∈ ['ゔ']
    exact List.mem_singleton.mpr rfl
  · have hspan : spanText [SpanChild.mk (some "ゔ") false] = "ゔ" := rfl
    have hrow : rowRecords "ゔ" 50 = [] := rfl
    have hne : (50 : ℚ) ≠ 0 := by norm_num
    simp [extract_kanji_usage_data, collectRows, processRow, hspan,
      parsePercentage_fifty, hne, hrow]

/-- C5 amended: the partition of the reading token is by membership in the
regex ranges U+3041 to U+3093 and U+30A1 to U+30F3 (not the full Unicode
blocks): each subsequence is exactly the in-order filter of the token by the
respective range, characters inside a range are never lost, and exactly one
record per non-empty subsequence is emitted, all carrying the row
percentage. -/
theorem row_partition_by_code_ranges (reading : String) (p : ℚ) :
    (hiraganaOf reading).data = reading.data.filter isHira ∧
    (katakanaOf reading).data = reading.data.filter isKata ∧
    (∀ c ∈ reading.data, isHira c → c ∈ (hiraganaOf reading).data) ∧
    (∀ c ∈ reading.data, isKata c → c ∈ (katakanaOf reading).data) ∧
    (∀ rec ∈ rowRecords reading p,
      rec.percentage = p ∧
      ((rec.type = ScriptType.hiragana ∧ rec.reading = hiraganaOf reading) ∨
       (rec.type = ScriptType.katakana ∧ rec.reading = katakanaOf reading))) ∧
    ((rowRecords reading p).countP
        (fun rec => rec.type = ScriptType.hiragana) =
      if hiraganaOf reading = "" then 0 else 1) ∧
    ((rowRecords reading p).countP
        (fun rec => rec.type = ScriptType.katakana) =
      if katakanaOf reading = "" then 0 else 1) := by
  refine ⟨rfl, rfl, ?_, ?_, ?_, ?_, ?_⟩
  · intro c hc hh
    exact List.mem_filter.mpr ⟨hc, hh⟩
  · intro c hc hh
    exact List.mem_filter.mpr ⟨hc, hh⟩
  · intro rec hrec
    unfold rowRecords at hrec
    rcases List.mem_append.mp hrec with h | h <;> split at h <;> simp_all
  · unfold rowRecords
    by_cases h1 : hiraganaOf reading = "" <;>
      by_cases h2 : katakanaOf reading = "" <;> simp [h1, h2]
  · unfold rowRecords
    by_cases h1 : hiraganaOf reading = "" <;>
      by_cases h2 : katakanaOf reading = "" <;> simp [h1, h2]

/-- Witness for the amended C5 at a concrete token. -/
theorem row_partition_by_code_ranges_witness :
    'あ' ∈ (hiraganaOf "あア").data :=
  (row_partition_by_code_ranges "あア" 50).2.2.1 'あ'
    (by show 'あ' ∈ ['あ', 'ア']; exact List.mem_cons_self _ _) rfl

/-- C6 counterexample: the token of this row contains the hiragana letter
U+3094 and the katakana letter U+30A2, both phonetic characters of their
scripts, and the row percentage 50 is nonzero, yet the extractor emits
exactly one record (the katakana one), not two: U+3094 is outside the
hiragana regex range. -/
theorem mixed_block_row_single_record :
    specHiraganaBlock 'ゔ' = true ∧ specKatakanaBlock 'ア' = true ∧
    'ゔ' ∈ "ゔア".data ∧ 'ア' ∈ "ゔア".data ∧
    extract_kanji_usage_data
        [[[Cell.mk (some (Link.mk [[SpanChild.mk (some "ゔア") false]])) "x",
           Cell.mk none "50%"]]] =
      some [UsageRecord.mk "ア" ScriptType.katakana 50] := by
  refine ⟨rfl, rfl, ?_, ?_, ?_⟩
  · show 'ゔ' ∈ ['ゔ', 'ア']
    exact List.mem_cons_self _ _
  · show 'ア' ∈ ['ゔ', 'ア']
    exact List.mem_cons_of_mem _ (List.mem_singleton.mpr rfl)
  · have hspan : spanText [SpanChild.mk (some "ゔア") false] = "ゔア" := rfl
    have hrow : rowRecords "ゔア" 50 =
        [UsageRecord.mk "ア" ScriptType.katakana 50] := rfl
    have hne : (50 : ℚ) ≠ 0 := by norm_num
    simp [extract_kanji_usage_data, collectRows, processRow, hspan,
      parsePercentage_fifty, hne, hrow, List.mergeSort_singleton]

theorem mk_ne_empty_of_mem {c : Char} {l : List Char} (h : c ∈ l) :
    String.mk l ≠ "" := by
  intro he
  have hmem : c ∈ ("" : String).data := by
    rw [← he]; exact h
  exact absurd hmem (List.not_mem_nil c)

/-- C6 amended: a qualifying usage-table row whose reading token contains at
least one character in the range U+3041 to U+3093 and at least one in the
range U+30A1 to U+30F3, with nonzero parsed percentage, yields exactly the
two records, hiragana first, both carrying that percentage. -/
theorem mixed_range_row_two_records (c0 c1 : Cell) (rest : List Cell)
    (link : Link) (reading : String) (moreReadings : List String) (p : ℚ)
    (hlink : c0.link = some link)
    (hspans : link.readingSpans.map spanText = reading :: moreReadings)
    (hp : parsePercentage c1.text = some p) (hp0 : p ≠ 0)
    (hh : ∃ c ∈ reading.data, isHira c)
    (hk : ∃ c ∈ reading.data, isKata c) :
    processRow (c0 :: c1 :: rest) =
      some [UsageRecord.mk (hiraganaOf reading) ScriptType.hiragana p,
            UsageRecord.mk (katakanaOf reading) ScriptType.katakana p] := by
  obtain ⟨ch, hch, hmh⟩ := hh
  obtain ⟨ck, hck, hmk⟩ := hk
  have hhne : hiraganaOf reading ≠ "" :=
    mk_ne_empty_of_mem (List.mem_filter.mpr ⟨hch, hmh⟩)
  have hkne : katakanaOf reading ≠ "" :=
    mk_ne_empty_of_mem (List.mem_filter.mpr ⟨hck, hmk⟩)
  simp only [processRow, hlink, hspans, hp]
  rw [if_pos hp0, rowRecords, if_pos hhne, if_pos hkne]
  rfl

/-- Witness for the amended C6 at a concrete row. -/
theorem mixed_range_row_two_records_witness :
    processRow [Cell.mk (some (Link.mk [[SpanChild.mk (some "あア") false]])) "x",
        Cell.mk none "50%"] =
      some [UsageRecord.mk (hiraganaOf "あア") ScriptType.hiragana 50,
            UsageRecord.mk (katakanaOf "あア") ScriptType.katakana 50] := by
  have hmema : 'あ' ∈ "あア".data := by
    show 'あ' ∈ ['あ', 'ア']
    exact List.mem_cons_self _ _
  have hmemk : 'ア' ∈ "あア".data := by
    show 'ア' ∈ ['あ', 'ア']
    exact List.mem_cons_of_mem _ (List.mem_singleton.mpr rfl)
  exact mixed_range_row_two_records _ _ []
    (Link.mk [[SpanChild.mk (some "あア") false]]) "あア" [] 50 rfl rfl
    parsePercentage_fifty (by norm_num) ⟨'あ', hmema, rfl⟩ ⟨'ア', hmemk, rfl⟩

/-- Witness for C9 at a concrete well-formed response. -/
theorem invoke_ok_iff_exact_fields_witness :
    invoke [("result", Json.num 3), ("error", Json.null)] =
      Except.ok (Json.num 3) :=
  (invoke_ok_iff_exact_fields [("result", Json.num 3), ("error", Json.null)]
    (Json.num 3)).mpr (Or.inl rfl)

end KanjiDeck
